import Mathlib

/-!
Verification of the gossip protocol core (`p2p/gossip/protocol.go`).

The Go source is shallowly embedded: pure computations become Lean
functions, the mutable `Protocol` struct becomes an explicit state record
threaded through the operations, and the concurrent loops become either
functions over the (finite) streams they consume or an explicit small-step
transition relation.  External collaborators that the source calls through
interfaces (`baseNetwork`) are parameters of the embedding; components of
this repository that are referenced but whose code is not under `src/`
(`types.DoubleCache`, `types.CalcMessageHash12`, `priorityq`) are modelled
from the specification, with a doc comment saying so on each.
-/

namespace Gossip

/-- Opaque stable public identifier of a peer (`p2pcrypto.PublicKey`). -/
abbrev PublicKey := Nat

/-- Raw message payload bytes (`service.Data.Bytes()`). -/
abbrev Payload := List Nat

/-- Modelled from the spec: `types.Hash12` (the 12-byte message
fingerprint type) is not under `src/`.  The spec describes it as a
fixed-size digest computed deterministically from the payload bytes
concatenated with the sub-protocol name, with digest collisions accepted
as identity; the digest compression itself is abstracted away, keeping
the concatenation. -/
abbrev Hash12 := List Nat

/-- Modelled from the spec: `types.CalcMessageHash12` is not under
`src/`.  Per the spec it is a deterministic function of the message
payload bytes concatenated with the sub-protocol name, and of nothing
else (in particular not of the sender). -/
def CalcMessageHash12 (payload : Payload) (protocol : String) : Hash12 :=
  payload ++ protocol.toList.map Char.toNat

/-- Modelled from the spec: `priorityq.Priority` is not under `src/`.
The spec gives a small ordered enum of priority levels {Low, Mid, High}
with Low the lowest level. -/
inductive Priority where
  | High : Priority
  | Mid : Priority
  | Low : Priority
deriving DecidableEq, Repr

/-- Numeric rank of a priority level: higher rank = lower priority.
Used only to state that `Low` is the lowest defined level. -/
def Priority.rank : Priority → Nat
  | .High => 0
  | .Mid => 1
  | .Low => 2

/-- `service.MessageValidation`: the record produced by the external
validator, carrying sender, sub-protocol name and raw message bytes
(accessors `Sender()`, `Protocol()`, `Message()`). -/
structure MessageValidation where
  sender : PublicKey
  protocol : String
  message : Payload
deriving DecidableEq, Repr

/-- Modelled from the spec: `types.DoubleCache` is not under `src/`.
Per the spec it is two generations of a fingerprint set, each capped at
a per-generation capacity; insertion always goes into the current
generation; when the current generation reaches capacity it becomes the
previous generation and a new empty current generation begins, the old
previous generation being dropped; lookup checks both generations. -/
structure DoubleCache where
  size : Nat
  cacheCur : List Hash12
  cachePrev : List Hash12
deriving DecidableEq, Repr

/-- `types.NewDoubleCache size`: both generations start empty. -/
def NewDoubleCache (size : Nat) : DoubleCache :=
  { size := size, cacheCur := [], cachePrev := [] }

/-- Lookup: a fingerprint is known if it is in either generation. -/
def DoubleCache.lookup (c : DoubleCache) (h : Hash12) : Bool :=
  h ∈ c.cacheCur || h ∈ c.cachePrev

/-- Modelled from the spec: `DoubleCache.GetOrInsert` (the atomic
check-and-mark).  Returns true iff the fingerprint was already known;
otherwise records it in the current generation, rotating the
generations first when the current one is at capacity. -/
def DoubleCache.GetOrInsert (c : DoubleCache) (h : Hash12) : Bool × DoubleCache :=
  if c.lookup h then (true, c)
  else if c.cacheCur.length < c.size then
    (false, { c with cacheCur := c.cacheCur ++ [h] })
  else
    (false, { c with cachePrev := c.cacheCur, cacheCur := [h] })

/-- Folding `GetOrInsert` over a list of fingerprints (the state of the
cache after a sequence of insertions). -/
def insertAll (c : DoubleCache) (l : List Hash12) : DoubleCache :=
  l.foldl (fun c h => (c.GetOrInsert h).2) c

/-- `const oldMessageCacheSize = 10000` (protocol.go line 17). -/
def oldMessageCacheSize : Nat := 10000

/-- `const propagateHandleBufferSize = 5000` (protocol.go line 18). -/
def propagateHandleBufferSize : Nat := 5000

/-- The `baseNetwork` interface of protocol.go, restricted to the return
values the embedded code observes: the result of `SendMessage` and the
result of `ProcessGossipProtocolMessage`, each `none` for a nil error
and `some e` for error `e`. -/
structure baseNetwork where
  sendMessageResult : PublicKey → String → Payload → Option String
  processGossipResult : PublicKey → String → Payload → Option String

/-- The `peer` struct of protocol.go (the `log` and `net` fields carry
no state distinguishing peers; the identifying field is `pubkey`). -/
structure peerRec where
  pubkey : PublicKey
deriving DecidableEq, Repr

/-- `newPeer` (protocol.go line 82). -/
def newPeer (pubkey : PublicKey) : peerRec :=
  { pubkey := pubkey }

/-- The mutable state of the `Protocol` struct, together with the
observation trace the claims are about: `validatorCalls` records every
hand-off made through `net.ProcessGossipProtocolMessage`, and
`oldGossipCount` / `newGossipCount` record the two metrics counters. -/
structure Protocol where
  localNodePubkey : PublicKey
  peers : List (PublicKey × peerRec)
  oldMessageQ : DoubleCache
  priorities : List (String × Priority)
  validatorCalls : List (PublicKey × String × Payload)
  oldGossipCount : Nat
  newGossipCount : Nat

/-- `NewProtocol` (protocol.go line 54): empty peer map, fresh dedup
cache of capacity `oldMessageCacheSize`, empty priority map. -/
def NewProtocol (localNodePubkey : PublicKey) : Protocol :=
  { localNodePubkey := localNodePubkey
    peers := []
    oldMessageQ := NewDoubleCache oldMessageCacheSize
    priorities := []
    validatorCalls := []
    oldGossipCount := 0
    newGossipCount := 0 }

/-- Go map assignment `m[k] = v`: overwrite the entry when the key is
present, append a new entry otherwise. -/
def mapInsert (m : List (PublicKey × peerRec)) (k : PublicKey) (v : peerRec) :
    List (PublicKey × peerRec) :=
  if m.any (fun kv => kv.1 = k) then
    m.map (fun kv => if kv.1 = k then (k, v) else kv)
  else
    m ++ [(k, v)]

/-- `addPeer` (protocol.go line 145): `prot.peers[peer] = newPeer(...)`. -/
def addPeer (prot : Protocol) (peer : PublicKey) : Protocol :=
  { prot with peers := mapInsert prot.peers peer (newPeer peer) }

/-- `removePeer` (protocol.go line 152): `delete(prot.peers, peer)`. -/
def removePeer (prot : Protocol) (peer : PublicKey) : Protocol :=
  { prot with peers := prot.peers.filter (fun kv => kv.1 ≠ peer) }

/-- `peersCount` (protocol.go line 252). -/
def peersCount (prot : Protocol) : Nat :=
  prot.peers.length

/-- `hasPeer` (protocol.go line 260). -/
def hasPeer (prot : Protocol) (key : PublicKey) : Bool :=
  prot.peers.any (fun kv => kv.1 = key)

/-- `markMessageAsOld` (protocol.go line 97): `oldMessageQ.GetOrInsert h`,
returning whether the message was already processed before, together
with the updated cache. -/
def markMessageAsOld (prot : Protocol) (h : Hash12) : Bool × Protocol :=
  let r := prot.oldMessageQ.GetOrInsert h
  (r.1, { prot with oldMessageQ := r.2 })

/-- One send issued during fan-out: target peer, sub-protocol, payload
(the arguments of `prot.net.SendMessage` at protocol.go line 121). -/
structure SendCall where
  peerPubkey : PublicKey
  protocol : String
  payload : Payload
deriving DecidableEq, Repr

/-- `propagateMessage` (protocol.go line 103): snapshot the peer keys
under the read lock, skip the excluded sender, and issue one concurrent
send per remaining peer; `wg.Wait()` makes the function return only once
every send has resolved, so the embedding returns the full list of
(send, resolution) pairs.  A failed send is only logged (protocol.go
line 123) and removes nothing from the list. -/
def propagateMessage (net : baseNetwork) (prot : Protocol) (payload : Payload)
    (nextProt : String) (exclude : PublicKey) : List (SendCall × Option String) :=
  let peerKeys := prot.peers.map (fun kv => kv.1)
  (peerKeys.filter (fun p => p ≠ exclude)).map
    (fun p => (⟨p, nextProt, payload⟩, net.sendMessageResult p nextProt payload))

/-- `processMessage` (protocol.go line 159): compute the fingerprint,
atomically check-and-mark it; when old, count the duplicate metric and
return nil without touching the validator; when new, count the novel
metric and return the validator hand-off's result, recording the
hand-off. -/
def processMessage (net : baseNetwork) (prot : Protocol) (sender : PublicKey)
    (protocol : String) (msg : Payload) : Option String × Protocol :=
  let h := CalcMessageHash12 msg protocol
  let r := markMessageAsOld prot h
  if r.1 then
    (none, { r.2 with oldGossipCount := r.2.oldGossipCount + 1 })
  else
    (net.processGossipResult sender protocol msg,
     { r.2 with
        newGossipCount := r.2.newGossipCount + 1
        validatorCalls := r.2.validatorCalls ++ [(sender, protocol, msg)] })

/-- `Broadcast` (protocol.go line 132): process the message with the
local node as sender. -/
def Broadcast (net : baseNetwork) (prot : Protocol) (payload : Payload)
    (nextProt : String) : Option String × Protocol :=
  processMessage net prot prot.localNodePubkey nextProt payload

/-- `Relay` (protocol.go line 226): process the message with the remote
sender preserved. -/
def Relay (net : baseNetwork) (prot : Protocol) (sender : PublicKey)
    (protocol : String) (msg : Payload) : Option String × Protocol :=
  processMessage net prot sender protocol msg

/-- Go map read `v, exist := prot.priorities[protoName]`. -/
def lookupPriority : List (String × Priority) → String → Option Priority
  | [], _ => none
  | kv :: rest, n => if kv.1 = n then some kv.2 else lookupPriority rest n

/-- `getPriority` (protocol.go line 195): configured priority, or `Low`
(with a warning, not an error) when the sub-protocol has none. -/
def getPriority (prot : Protocol) (protoName : String) : Priority :=
  match lookupPriority prot.priorities protoName with
  | some v => v
  | none => Priority.Low

/-- `SetPriority` (protocol.go line 268): Go map upsert
`prot.priorities[protoName] = priority`. -/
def SetPriority (prot : Protocol) (protoName : String) (priority : Priority) :
    Protocol :=
  { prot with
      priorities :=
        if prot.priorities.any (fun kv => kv.1 = protoName) then
          prot.priorities.map
            (fun kv => if kv.1 = protoName then (protoName, priority) else kv)
        else
          prot.priorities ++ [(protoName, priority)] }

/-- `handlePQ` (protocol.go line 177) over the finite stream of items
the priority queue delivers before it is closed: for each dequeued
validation record, recompute the fingerprint from the record's message
and protocol and fan out, excluding the record's sender.  Send failures
inside one fan-out never break the loop, so every item yields an entry. -/
def handlePQ (net : baseNetwork) (prot : Protocol) (items : List MessageValidation) :
    List (Hash12 × List (SendCall × Option String)) :=
  items.map (fun m =>
    (CalcMessageHash12 m.message m.protocol,
     propagateMessage net prot m.message m.protocol m.sender))

/-- One peer-membership mutation, as dispatched by `eventLoop`
(protocol.go line 230): a connect event leads to `addPeer`, a disconnect
event to `removePeer`. -/
inductive PeerOp where
  | add (p : PublicKey) : PeerOp
  | remove (p : PublicKey) : PeerOp
deriving DecidableEq, Repr

/-- Apply one membership mutation to the protocol state. -/
def applyPeerOp (prot : Protocol) : PeerOp → Protocol
  | .add p => addPeer prot p
  | .remove p => removePeer prot p

/-- Apply a sequence of membership mutations in order. -/
def applyPeerOps (prot : Protocol) (ops : List PeerOp) : Protocol :=
  ops.foldl applyPeerOp prot

/-- Status of one of the protocol's loops (goroutines): still running,
or returned. -/
inductive LoopStatus where
  | running : LoopStatus
  | terminated : LoopStatus
deriving DecidableEq, Repr

/-- Joint state of the shutdown signal, the two propagation-pipeline
loops (`propagationEventLoop` as the queue feeder, `handlePQ` as the
consumer) and the two queues between them.  `pq` abstracts the external
priority queue as the multiset of items it still holds (modelled from
the spec: the `priorityq` package is not under `src/`; per the spec its
Read blocks until an item is available or the queue is closed, in which
case it returns a distinguishable closed-error). -/
structure PipelineState where
  shutdownClosed : Bool
  propagateQ : List MessageValidation
  pq : List MessageValidation
  pqClosed : Bool
  feedStatus : LoopStatus
  consumerStatus : LoopStatus
deriving DecidableEq, Repr

/-- Small-step transition relation of the propagation pipeline:
`closeShutdown` is `Close()` (protocol.go line 91); `feedMsg` and
`feedMsgClosed` are the `propagateQ` branch of `propagationEventLoop`
(line 211: a Write after close fails and is only logged, the loop
continues); `feedShutdown` is its shutdown branch (line 217: close the
priority queue and return); `consumeItem` is a successful `pq.Read()` in
`handlePQ` (line 179); `consumeClosed` is `pq.Read()` returning the
closed-error, upon which `handlePQ` returns (line 181). -/
inductive PStep : PipelineState → PipelineState → Prop where
  | closeShutdown (s : PipelineState) :
      s.shutdownClosed = false →
      PStep s { s with shutdownClosed := true }
  | feedMsg (s : PipelineState) (m : MessageValidation) (rest : List MessageValidation) :
      s.feedStatus = .running → s.propagateQ = m :: rest → s.pqClosed = false →
      PStep s { s with propagateQ := rest, pq := s.pq ++ [m] }
  | feedMsgClosed (s : PipelineState) (m : MessageValidation) (rest : List MessageValidation) :
      s.feedStatus = .running → s.propagateQ = m :: rest → s.pqClosed = true →
      PStep s { s with propagateQ := rest }
  | feedShutdown (s : PipelineState) :
      s.feedStatus = .running → s.shutdownClosed = true →
      PStep s { s with pqClosed := true, feedStatus := .terminated }
  | consumeItem (s : PipelineState) (m : MessageValidation) (rest : List MessageValidation) :
      s.consumerStatus = .running → s.pq = m :: rest →
      PStep s { s with pq := rest }
  | consumeClosed (s : PipelineState) :
      s.consumerStatus = .running → s.pq = [] → s.pqClosed = true →
      PStep s { s with consumerStatus := .terminated }

/-- State of a Go channel as far as `close` is concerned. -/
structure ChannelState where
  isClosed : Bool
deriving DecidableEq, Repr

/-- A Go runtime panic. -/
structure GoPanic where
  message : String
deriving DecidableEq, Repr

/-- Go's builtin `close` on a channel: closing an already-closed channel
panics with "close of closed channel" (Go language runtime semantics). -/
def goClose (c : ChannelState) : Except GoPanic ChannelState :=
  if c.isClosed then Except.error { message := "close of closed channel" }
  else Except.ok { isClosed := true }

/-- `Close` (protocol.go line 91): `close(prot.shutdown)`, with the
shutdown channel's state made explicit. -/
def Close (shutdown : ChannelState) : Except GoPanic ChannelState :=
  goClose shutdown

/-- Concrete network whose sends and validator hand-offs all succeed
(used in witnesses). -/
def netOk : baseNetwork :=
  { sendMessageResult := fun _ _ _ => none
    processGossipResult := fun _ _ _ => none }

/-- Concrete network whose sends all fail (used in witnesses). -/
def netSendFail : baseNetwork :=
  { sendMessageResult := fun _ _ _ => some "send failed"
    processGossipResult := fun _ _ _ => none }

/-- Concrete network whose validator hand-off always errors (used in
witnesses). -/
def netValidatorErr : baseNetwork :=
  { sendMessageResult := fun _ _ _ => none
    processGossipResult := fun _ _ _ => some "validator error" }

/-- Concrete protocol state with peers 1 and 2 registered (used in
witnesses). -/
def protAB : Protocol :=
  { NewProtocol 0 with peers := [(1, newPeer 1), (2, newPeer 2)] }

/-! ### Lemmas about the deduplication cache -/

theorem lookup_true_iff (c : DoubleCache) (h : Hash12) :
    c.lookup h = true ↔ h ∈ c.cacheCur ∨ h ∈ c.cachePrev := by
  simp [DoubleCache.lookup]

theorem lookup_false_iff (c : DoubleCache) (h : Hash12) :
    c.lookup h = false ↔ h ∉ c.cacheCur ∧ h ∉ c.cachePrev := by
  simp [DoubleCache.lookup, not_or]

theorem size_getOrInsert (c : DoubleCache) (h : Hash12) :
    (c.GetOrInsert h).2.size = c.size := by
  unfold DoubleCache.GetOrInsert
  split
  · rfl
  · split <;> rfl

theorem getOrInsert_fst (c : DoubleCache) (h : Hash12) :
    (c.GetOrInsert h).1 = c.lookup h := by
  unfold DoubleCache.GetOrInsert
  split
  · rename_i hl; simp [hl]
  · rename_i hl; simp at hl
    split <;> simp [hl]

theorem getOrInsert_of_lookup {c : DoubleCache} {h : Hash12}
    (hl : c.lookup h = true) : c.GetOrInsert h = (true, c) := by
  simp [DoubleCache.GetOrInsert, hl]

theorem lookup_getOrInsert_self (c : DoubleCache) (h : Hash12) :
    (c.GetOrInsert h).2.lookup h = true := by
  unfold DoubleCache.GetOrInsert
  split
  · rename_i hl; exact hl
  · split
    · simp [DoubleCache.lookup]
    · simp [DoubleCache.lookup]

theorem mem_cur_getOrInsert {c : DoubleCache} {h : Hash12}
    (hl : c.lookup h = false) : h ∈ (c.GetOrInsert h).2.cacheCur := by
  unfold DoubleCache.GetOrInsert
  rw [hl]
  split
  · rename_i hc; exact absurd hc (by simp)
  · split <;> simp

theorem lookup_getOrInsert_of_ne {c : DoubleCache} {h x : Hash12}
    (hl : c.lookup h = false) (hne : x ≠ h) :
    (c.GetOrInsert x).2.lookup h = false := by
  obtain ⟨hcur, hprev⟩ := (lookup_false_iff c h).mp hl
  have hxh : ¬h = x := fun hh => hne hh.symm
  unfold DoubleCache.GetOrInsert
  split
  · exact hl
  · split
    · simp [DoubleCache.lookup, hcur, hprev, hxh]
    · simp [DoubleCache.lookup, hcur, hxh]

theorem lookup_getOrInsert_mono {c : DoubleCache} {h x : Hash12}
    (hl : (c.GetOrInsert x).2.lookup h = true) :
    c.lookup h = true ∨ h = x := by
  revert hl
  unfold DoubleCache.GetOrInsert
  split
  · exact fun hl => Or.inl hl
  · split
    · intro hl
      rcases (lookup_true_iff _ _).mp hl with hc | hp
      · rcases List.mem_append.mp hc with hc | hc
        · exact Or.inl ((lookup_true_iff _ _).mpr (Or.inl hc))
        · exact Or.inr (List.mem_singleton.mp hc)
      · exact Or.inl ((lookup_true_iff _ _).mpr (Or.inr hp))
    · intro hl
      rcases (lookup_true_iff _ _).mp hl with hc | hp
      · exact Or.inr (List.mem_singleton.mp hc)
      · exact Or.inl ((lookup_true_iff _ _).mpr (Or.inl hp))

theorem insertAll_nil (c : DoubleCache) : insertAll c [] = c := rfl

theorem insertAll_cons (c : DoubleCache) (x : Hash12) (l : List Hash12) :
    insertAll c (x :: l) = insertAll (c.GetOrInsert x).2 l := rfl

theorem insertAll_append (c : DoubleCache) (l1 l2 : List Hash12) :
    insertAll c (l1 ++ l2) = insertAll (insertAll c l1) l2 :=
  List.foldl_append _ _ _ _

theorem insertAll_size (c : DoubleCache) (l : List Hash12) :
    (insertAll c l).size = c.size := by
  induction l generalizing c with
  | nil => rfl
  | cons x rest ih => rw [insertAll_cons, ih, size_getOrInsert]

theorem lookup_insertAll_of_not {c : DoubleCache} {l : List Hash12} {h : Hash12}
    (hl : c.lookup h = false) (hne : ∀ x ∈ l, x ≠ h) :
    (insertAll c l).lookup h = false := by
  induction l generalizing c with
  | nil => exact hl
  | cons x rest ih =>
    rw [insertAll_cons]
    exact ih (lookup_getOrInsert_of_ne hl (hne x (List.mem_cons_self x rest)))
      (fun y hy => hne y (List.mem_cons_of_mem x hy))

theorem lookup_insertAll_mono {c : DoubleCache} {l : List Hash12} {h : Hash12}
    (hl : (insertAll c l).lookup h = true) :
    c.lookup h = true ∨ h ∈ l := by
  induction l generalizing c with
  | nil => exact Or.inl hl
  | cons x rest ih =>
    rw [insertAll_cons] at hl
    rcases ih hl with hstep | hmem
    · rcases lookup_getOrInsert_mono hstep with hc | hx
      · exact Or.inl hc
      · exact Or.inr (hx ▸ (List.mem_cons_self x rest))
    · exact Or.inr (List.mem_cons_of_mem x hmem)

theorem bounds_getOrInsert {c : DoubleCache} (x : Hash12) (hs : 0 < c.size)
    (hc : c.cacheCur.length ≤ c.size) (hp : c.cachePrev.length ≤ c.size) :
    (c.GetOrInsert x).2.cacheCur.length ≤ c.size ∧
    (c.GetOrInsert x).2.cachePrev.length ≤ c.size := by
  unfold DoubleCache.GetOrInsert
  split
  · exact ⟨hc, hp⟩
  · split
    · rename_i hlt
      refine ⟨?_, hp⟩
      simp only [List.length_append, List.length_singleton]
      omega
    · refine ⟨?_, hc⟩
      simpa using hs

theorem evict_from_prev {rest : List Hash12} {c : DoubleCache} {h : Hash12}
    (hs : 0 < c.size) (hc : c.cacheCur.length ≤ c.size) (hcur : h ∉ c.cacheCur)
    (hfresh : ∀ x ∈ rest, c.lookup x = false ∧ x ≠ h) (hnd : rest.Nodup)
    (hlen : c.size - c.cacheCur.length + 1 ≤ rest.length) :
    (insertAll c rest).lookup h = false := by
  induction rest generalizing c with
  | nil => exact absurd hlen (by simp)
  | cons x rest ih =>
    obtain ⟨hxf, hxh⟩ := hfresh x (List.mem_cons_self x rest)
    obtain ⟨hxrest, hndrest⟩ := List.nodup_cons.mp hnd
    obtain ⟨hxcur, hxprev⟩ := (lookup_false_iff c x).mp hxf
    rw [insertAll_cons]
    by_cases hlt : c.cacheCur.length < c.size
    · have hstep : (c.GetOrInsert x).2 = { c with cacheCur := c.cacheCur ++ [x] } := by
        simp [DoubleCache.GetOrInsert, hxf, hlt]
      rw [hstep]
      apply ih
      · exact hs
      · simp only [List.length_append, List.length_singleton]; omega
      · simp only [List.mem_append, List.mem_singleton]
        exact fun hmem => hmem.elim hcur (fun hh => hxh hh.symm)
      · intro y hy
        obtain ⟨hyf, hyh⟩ := hfresh y (List.mem_cons_of_mem x hy)
        obtain ⟨hycur, hyprev⟩ := (lookup_false_iff c y).mp hyf
        refine ⟨(lookup_false_iff _ _).mpr ⟨?_, hyprev⟩, hyh⟩
        simp only [List.mem_append, List.mem_singleton]
        exact fun hmem => hmem.elim hycur (fun hh => hxrest (hh ▸ hy))
      · exact hndrest
      · simp only [List.length_append, List.length_singleton, List.length_cons] at hlen ⊢
        omega
    · have hstep : (c.GetOrInsert x).2 =
          { c with cachePrev := c.cacheCur, cacheCur := [x] } := by
        simp [DoubleCache.GetOrInsert, hxf, hlt]
      rw [hstep]
      apply lookup_insertAll_of_not
      · refine (lookup_false_iff _ _).mpr ⟨?_, hcur⟩
        simp only [List.mem_singleton]
        exact fun hh => hxh hh.symm
      · exact fun y hy => (hfresh y (List.mem_cons_of_mem x hy)).2

theorem evict_general {rest : List Hash12} {c : DoubleCache} {h : Hash12}
    (hs : 0 < c.size) (hc : c.cacheCur.length ≤ c.size)
    (hfresh : ∀ x ∈ rest, c.lookup x = false ∧ x ≠ h) (hnd : rest.Nodup)
    (hlen : c.size - c.cacheCur.length + 1 + c.size ≤ rest.length) :
    (insertAll c rest).lookup h = false := by
  induction rest generalizing c with
  | nil => exact absurd hlen (by simp)
  | cons x rest ih =>
    obtain ⟨hxf, hxh⟩ := hfresh x (List.mem_cons_self x rest)
    obtain ⟨hxrest, hndrest⟩ := List.nodup_cons.mp hnd
    obtain ⟨hxcur, hxprev⟩ := (lookup_false_iff c x).mp hxf
    rw [insertAll_cons]
    by_cases hlt : c.cacheCur.length < c.size
    · have hstep : (c.GetOrInsert x).2 = { c with cacheCur := c.cacheCur ++ [x] } := by
        simp [DoubleCache.GetOrInsert, hxf, hlt]
      rw [hstep]
      apply ih
      · exact hs
      · simp only [List.length_append, List.length_singleton]; omega
      · intro y hy
        obtain ⟨hyf, hyh⟩ := hfresh y (List.mem_cons_of_mem x hy)
        obtain ⟨hycur, hyprev⟩ := (lookup_false_iff c y).mp hyf
        refine ⟨(lookup_false_iff _ _).mpr ⟨?_, hyprev⟩, hyh⟩
        simp only [List.mem_append, List.mem_singleton]
        exact fun hmem => hmem.elim hycur (fun hh => hxrest (hh ▸ hy))
      · exact hndrest
      · simp only [List.length_append, List.length_singleton, List.length_cons] at hlen ⊢
        omega
    · have hstep : (c.GetOrInsert x).2 =
          { c with cachePrev := c.cacheCur, cacheCur := [x] } := by
        simp [DoubleCache.GetOrInsert, hxf, hlt]
      rw [hstep]
      apply evict_from_prev
      · exact hs
      · simpa using hs
      · simp only [List.mem_singleton]
        exact fun hh => hxh hh.symm
      · intro y hy
        obtain ⟨hyf, hyh⟩ := hfresh y (List.mem_cons_of_mem x hy)
        obtain ⟨hycur, hyprev⟩ := (lookup_false_iff c y).mp hyf
        refine ⟨(lookup_false_iff _ _).mpr ⟨?_, hycur⟩, hyh⟩
        simp only [List.mem_singleton]
        exact fun hh => hxrest (hh ▸ hy)
      · exact hndrest
      · simp only [List.length_singleton, List.length_cons] at hlen ⊢
        omega

theorem insertAll_bounds {c : DoubleCache} (l : List Hash12) (hs : 0 < c.size)
    (hc : c.cacheCur.length ≤ c.size) (hp : c.cachePrev.length ≤ c.size) :
    (insertAll c l).cacheCur.length ≤ c.size ∧
    (insertAll c l).cachePrev.length ≤ c.size := by
  induction l generalizing c with
  | nil => exact ⟨hc, hp⟩
  | cons x rest ih =>
    rw [insertAll_cons]
    have hsize := size_getOrInsert c x
    have hb := bounds_getOrInsert x hs hc hp
    have := ih (c := (c.GetOrInsert x).2) (hsize ▸ hs) (hsize ▸ hb.1) (hsize ▸ hb.2)
    exact ⟨hsize ▸ this.1, hsize ▸ this.2⟩

theorem lookup_empty (k : Nat) (h : Hash12) : (NewDoubleCache k).lookup h = false := by
  simp [NewDoubleCache, DoubleCache.lookup]

theorem eviction_helper {k : Nat} {l : List Hash12} {i : Nat} (hk : 0 < k)
    (hnd : l.Nodup) (hi : i + 2 * k < l.length) :
    (insertAll (NewDoubleCache k) l).lookup (l.getD i []) = false := by
  have hilen : i < l.length := by omega
  have hgetD : l.getD i [] = l[i] := List.getD_eq_getElem l [] hilen
  rw [show insertAll (NewDoubleCache k) l =
        insertAll (insertAll (NewDoubleCache k) (l.take (i + 1))) (l.drop (i + 1)) from by
      rw [← insertAll_append, List.take_append_drop]]
  have htake : l.take (i + 1) = l.take i ++ [l[i]] := by
    rw [List.take_succ, List.getElem?_eq_getElem hilen]
    rfl
  have hmemtake : l[i] ∈ l.take (i + 1) := by
    rw [htake]; exact List.mem_append_right _ (List.mem_singleton.mpr rfl)
  have hndtake : (l.take (i + 1)).Nodup :=
    List.Nodup.sublist (List.take_sublist _ _) hnd
  have hnotintake : l[i] ∉ l.take i := by
    rw [htake] at hndtake
    intro hmem
    exact (List.disjoint_of_nodup_append hndtake) hmem (List.mem_singleton.mpr rfl)
  -- the state after the first i+1 insertions
  have hc1eq : insertAll (NewDoubleCache k) (l.take (i + 1)) =
      ((insertAll (NewDoubleCache k) (l.take i)).GetOrInsert l[i]).2 := by
    rw [htake, insertAll_append]
    rfl
  set c0 := insertAll (NewDoubleCache k) (l.take i) with hc0
  set c1 := insertAll (NewDoubleCache k) (l.take (i + 1)) with hc1
  have hfresh0 : c0.lookup l[i] = false := by
    rcases Bool.eq_false_or_eq_true (c0.lookup l[i]) with ht | hf
    · rcases lookup_insertAll_mono ht with hemp | hmem
      · rw [lookup_empty] at hemp; exact absurd hemp (by simp)
      · exact absurd hmem hnotintake
    · exact hf
  have hmemcur : l[i] ∈ c1.cacheCur := by
    rw [hc1eq]
    exact mem_cur_getOrInsert hfresh0
  have hsize1 : c1.size = k := insertAll_size _ _
  have hbounds1 : c1.cacheCur.length ≤ k ∧ c1.cachePrev.length ≤ k := by
    have := insertAll_bounds (c := NewDoubleCache k) (l.take (i + 1)) hk (by simp [NewDoubleCache]) (by simp [NewDoubleCache])
    exact this
  have hcurpos : 1 ≤ c1.cacheCur.length :=
    List.length_pos.mpr (List.ne_nil_of_mem hmemcur)
  have hdisj : (l.take (i + 1)).Disjoint (l.drop (i + 1)) :=
    List.disjoint_take_drop hnd (le_refl (i + 1))
  have hknown1 : ∀ y, c1.lookup y = true → y ∈ l.take (i + 1) := by
    intro y hy
    rcases lookup_insertAll_mono hy with hemp | hmem
    · rw [lookup_empty] at hemp; exact absurd hemp (by simp)
    · exact hmem
  rw [hgetD]
  apply evict_general (h := l[i])
  · rw [hsize1]; exact hk
  · rw [hsize1]; exact hbounds1.1
  · intro y hy
    constructor
    · rcases Bool.eq_false_or_eq_true (c1.lookup y) with ht | hf
      · exact absurd hy (fun hmem => hdisj (hknown1 y ht) hmem)
      · exact hf
    · intro hyh
      exact hdisj hmemtake (hyh ▸ hy)
  · exact List.Nodup.sublist (List.drop_sublist _ _) hnd
  · rw [hsize1]
    have hdroplen : (l.drop (i + 1)).length = l.length - (i + 1) := List.length_drop _ _
    omega

theorem persistence_helper (c : DoubleCache) (h x : Hash12)
    (hl : c.lookup h = true) :
    (c.GetOrInsert x).2.lookup h = true ∨
    (h ∈ c.cachePrev ∧ h ∉ c.cacheCur ∧ c.size ≤ c.cacheCur.length ∧
      (c.GetOrInsert x).2 = { c with cachePrev := c.cacheCur, cacheCur := [x] }) := by
  by_cases hx : c.lookup x = true
  · left
    rw [getOrInsert_of_lookup hx]
    exact hl
  · have hx' : c.lookup x = false := by simpa using hx
    by_cases hlt : c.cacheCur.length < c.size
    · left
      have hstep : (c.GetOrInsert x).2 = { c with cacheCur := c.cacheCur ++ [x] } := by
        simp [DoubleCache.GetOrInsert, hx', hlt]
      rw [hstep]
      rcases (lookup_true_iff c h).mp hl with hcur | hprev
      · exact (lookup_true_iff _ _).mpr (Or.inl (List.mem_append_left _ hcur))
      · exact (lookup_true_iff _ _).mpr (Or.inr hprev)
    · have hstep : (c.GetOrInsert x).2 =
          { c with cachePrev := c.cacheCur, cacheCur := [x] } := by
        simp [DoubleCache.GetOrInsert, hx', hlt]
      by_cases hcur : h ∈ c.cacheCur
      · left
        rw [hstep]
        exact (lookup_true_iff _ _).mpr (Or.inr hcur)
      · right
        rcases (lookup_true_iff c h).mp hl with hcur2 | hprev
        · exact absurd hcur2 hcur
        · exact ⟨hprev, hcur, by omega, hstep⟩

/-! ### Claim theorems -/

/-- Claim C4: the deduplication cache holds two generations, each capped
at the per-generation capacity (the source constructs it with capacity
`oldMessageCacheSize = 10000`); a fingerprint is reported known from the
moment it is marked; a known fingerprint stays known across any later
insertion unless that insertion rotates the generations and evicts the
previous generation holding it; and after inserting more than 2× the
per-generation capacity of distinct fingerprints into a fresh cache, the
oldest fingerprints beyond that bound are no longer reported as known. -/
theorem C4_dedup_cache_bounded :
    ((NewProtocol 0).oldMessageQ.size = 10000) ∧
    (∀ (c : DoubleCache) (h : Hash12), (c.GetOrInsert h).2.lookup h = true) ∧
    (∀ (c : DoubleCache) (h x : Hash12), c.lookup h = true →
      (c.GetOrInsert x).2.lookup h = true ∨
      (h ∈ c.cachePrev ∧ h ∉ c.cacheCur ∧ c.size ≤ c.cacheCur.length ∧
        (c.GetOrInsert x).2 = { c with cachePrev := c.cacheCur, cacheCur := [x] })) ∧
    (∀ (k : Nat) (l : List Hash12), 0 < k →
      (insertAll (NewDoubleCache k) l).cacheCur.length ≤ k ∧
      (insertAll (NewDoubleCache k) l).cachePrev.length ≤ k) ∧
    (∀ (k : Nat) (l : List Hash12) (i : Nat), 0 < k → l.Nodup →
      i + 2 * k < l.length →
      (insertAll (NewDoubleCache k) l).lookup (l.getD i []) = false) := by
  refine ⟨rfl, lookup_getOrInsert_self, persistence_helper, ?_, ?_⟩
  · intro k l hk
    exact insertAll_bounds l hk (by simp [NewDoubleCache]) (by simp [NewDoubleCache])
  · intro k l i hk hnd hi
    exact eviction_helper hk hnd hi

/-- Witness for C4: a concrete rotation evicting a known fingerprint,
and a concrete over-capacity insertion sequence forgetting the oldest
fingerprint (capacity 1, three distinct fingerprints). -/
theorem C4_dedup_cache_bounded_witness :
    (((DoubleCache.mk 1 [[5]] [[7]]).GetOrInsert [9]).2.lookup [7] = true ∨
      ([7] ∈ (DoubleCache.mk 1 [[5]] [[7]]).cachePrev ∧
        [7] ∉ (DoubleCache.mk 1 [[5]] [[7]]).cacheCur ∧
        (DoubleCache.mk 1 [[5]] [[7]]).size ≤
          (DoubleCache.mk 1 [[5]] [[7]]).cacheCur.length ∧
        ((DoubleCache.mk 1 [[5]] [[7]]).GetOrInsert [9]).2 =
          { DoubleCache.mk 1 [[5]] [[7]] with
              cachePrev := (DoubleCache.mk 1 [[5]] [[7]]).cacheCur,
              cacheCur := [[9]] })) ∧
    ((insertAll (NewDoubleCache 1) [[0], [1], [2]]).cacheCur.length ≤ 1 ∧
      (insertAll (NewDoubleCache 1) [[0], [1], [2]]).cachePrev.length ≤ 1) ∧
    (insertAll (NewDoubleCache 1) [[0], [1], [2]]).lookup
      ([[0], [1], [2]].getD 0 []) = false :=
  ⟨C4_dedup_cache_bounded.2.2.1 (DoubleCache.mk 1 [[5]] [[7]]) [7] [9] (by decide),
   C4_dedup_cache_bounded.2.2.2.1 1 [[0], [1], [2]] (by decide),
   C4_dedup_cache_bounded.2.2.2.2 1 [[0], [1], [2]] 0 (by decide) (by decide) (by decide)⟩

/-- Claim C3: for every message and every state of the peer registry,
fan-out never issues a send to the peer identified as the message's
original sender (the excluded key), even when that peer is present in
the registry. -/
theorem C3_fanout_never_sends_to_sender (net : baseNetwork) (prot : Protocol)
    (payload : Payload) (nextProt : String) (exclude : PublicKey) :
    ((propagateMessage net prot payload nextProt exclude).map
      (fun r => r.1.peerPubkey)).contains exclude = false := by
  simp [propagateMessage, List.map_map, Function.comp, List.mem_filter]

/-- Claim C2: fan-out issues exactly one send per peer in the registry
snapshot that is not the excluded sender; `propagateMessage` returns the
resolution of every one of those sends (success or failure), the set of
sends issued not depending on which sends fail; and the consumer loop
`handlePQ` processes every queued item even when sends fail (no retry,
no loop termination on send failure). -/
theorem C2_fanout_completeness (net net2 : baseNetwork) (prot : Protocol)
    (payload : Payload) (nextProt : String) (exclude : PublicKey)
    (hnd : (prot.peers.map (fun kv => kv.1)).Nodup) :
    (∀ p ∈ prot.peers.map (fun kv => kv.1), p ≠ exclude →
      ((propagateMessage net prot payload nextProt exclude).map
        (fun r => r.1.peerPubkey)).count p = 1) ∧
    (propagateMessage net prot payload nextProt exclude).length =
      ((prot.peers.map (fun kv => kv.1)).filter (fun p => p ≠ exclude)).length ∧
    ((propagateMessage net2 prot payload nextProt exclude).map (fun r => r.1) =
      (propagateMessage net prot payload nextProt exclude).map (fun r => r.1)) ∧
    (∀ items : List MessageValidation,
      (handlePQ net prot items).length = items.length) := by
  refine ⟨?_, ?_, ?_, ?_⟩
  · intro p hp hne
    have hmap : (propagateMessage net prot payload nextProt exclude).map
        (fun r => r.1.peerPubkey) =
        (prot.peers.map (fun kv => kv.1)).filter (fun q => q ≠ exclude) := by
      simp only [propagateMessage, List.map_map]
      exact List.map_id' _
    rw [hmap, List.count_filter (by simpa using hne)]
    exact List.count_eq_one_of_mem hnd hp
  · simp [propagateMessage]
  · simp [propagateMessage, List.map_map, Function.comp]
  · intro items
    simp [handlePQ]

/-- Witness for C2: registry {1, 2}, excluded sender 2, all sends
failing: exactly one send to peer 1, the failed send resolved in the
result, identical targets under a succeeding network, and the consumer
loop processing its item. -/
theorem C2_fanout_completeness_witness :
    ((propagateMessage netSendFail protAB [5] "x" 2).map
      (fun r => r.1.peerPubkey)).count 1 = 1 ∧
    (propagateMessage netSendFail protAB [5] "x" 2).length =
      ((protAB.peers.map (fun kv => kv.1)).filter (fun p => p ≠ 2)).length ∧
    ((propagateMessage netOk protAB [5] "x" 2).map (fun r => r.1) =
      (propagateMessage netSendFail protAB [5] "x" 2).map (fun r => r.1)) ∧
    (handlePQ netSendFail protAB [MessageValidation.mk 2 "x" [5]]).length =
      [MessageValidation.mk 2 "x" [5]].length := by
  have h := C2_fanout_completeness netSendFail netOk protAB [5] "x" 2 (by decide)
  exact ⟨h.1 1 (by decide) (by decide), h.2.1, h.2.2.1,
    h.2.2.2 [MessageValidation.mk 2 "x" [5]]⟩

theorem oldMessageQ_processMessage (net : baseNetwork) (prot : Protocol)
    (s : PublicKey) (protocol : String) (payload : Payload) :
    (processMessage net prot s protocol payload).2.oldMessageQ =
      (prot.oldMessageQ.GetOrInsert (CalcMessageHash12 payload protocol)).2 := by
  cases hb : (prot.oldMessageQ.GetOrInsert (CalcMessageHash12 payload protocol)).1 <;>
    simp [processMessage, markMessageAsOld, hb]

/-- Claim C1: Broadcast and Relay are the same intake path
(`processMessage`) with the local node respectively the remote peer as
sender; for a fresh (payload, sub-protocol) pair, submitting the
identical pair twice (with any senders) yields exactly one validator
hand-off: the first submission appends exactly one hand-off record, the
second is classified as a duplicate (the duplicate metric increments),
returns nil, and reaches no validator. -/
theorem C1_duplicate_single_handoff (net : baseNetwork) (prot : Protocol)
    (s1 s2 : PublicKey) (protocol : String) (payload : Payload)
    (hfresh : prot.oldMessageQ.lookup (CalcMessageHash12 payload protocol) = false) :
    (Broadcast net prot payload protocol =
      processMessage net prot prot.localNodePubkey protocol payload) ∧
    (Relay net prot s1 protocol payload =
      processMessage net prot s1 protocol payload) ∧
    ((processMessage net prot s1 protocol payload).2.validatorCalls =
      prot.validatorCalls ++ [(s1, protocol, payload)]) ∧
    ((processMessage net ((processMessage net prot s1 protocol payload).2) s2
        protocol payload).1 = none) ∧
    ((processMessage net ((processMessage net prot s1 protocol payload).2) s2
        protocol payload).2.validatorCalls =
      (processMessage net prot s1 protocol payload).2.validatorCalls) ∧
    ((processMessage net ((processMessage net prot s1 protocol payload).2) s2
        protocol payload).2.oldGossipCount =
      (processMessage net prot s1 protocol payload).2.oldGossipCount + 1) := by
  refine ⟨rfl, rfl, ?_, ?_, ?_, ?_⟩ <;>
    simp [processMessage, markMessageAsOld, getOrInsert_fst,
      lookup_getOrInsert_self, hfresh]

/-- Witness for C1: a fresh protocol state, Broadcast/Relay agreement,
and two sequential submissions of payload [5] on sub-protocol "x" from
senders 3 and 4. -/
theorem C1_duplicate_single_handoff_witness :
    (Broadcast netOk (NewProtocol 0) [5] "x" =
      processMessage netOk (NewProtocol 0) (NewProtocol 0).localNodePubkey "x" [5]) ∧
    (Relay netOk (NewProtocol 0) 3 "x" [5] =
      processMessage netOk (NewProtocol 0) 3 "x" [5]) ∧
    ((processMessage netOk (NewProtocol 0) 3 "x" [5]).2.validatorCalls =
      (NewProtocol 0).validatorCalls ++ [(3, "x", [5])]) ∧
    ((processMessage netOk ((processMessage netOk (NewProtocol 0) 3 "x" [5]).2) 4
        "x" [5]).1 = none) ∧
    ((processMessage netOk ((processMessage netOk (NewProtocol 0) 3 "x" [5]).2) 4
        "x" [5]).2.validatorCalls =
      (processMessage netOk (NewProtocol 0) 3 "x" [5]).2.validatorCalls) ∧
    ((processMessage netOk ((processMessage netOk (NewProtocol 0) 3 "x" [5]).2) 4
        "x" [5]).2.oldGossipCount =
      (processMessage netOk (NewProtocol 0) 3 "x" [5]).2.oldGossipCount + 1) :=
  C1_duplicate_single_handoff netOk (NewProtocol 0) 3 4 "x" [5] (by decide)

/-- Claim C10: intake is not atomic on validator hand-off failure: the
fingerprint is recorded before the hand-off, so when the hand-off
errors, the error is surfaced, the fingerprint stays recorded, and any
later resubmission of the same (payload, sub-protocol) returns nil as a
duplicate without a second validator hand-off. -/
theorem C10_failed_handoff_not_atomic (net : baseNetwork) (prot : Protocol)
    (s1 s2 : PublicKey) (protocol : String) (payload : Payload) (e : String)
    (hfresh : prot.oldMessageQ.lookup (CalcMessageHash12 payload protocol) = false)
    (herr : net.processGossipResult s1 protocol payload = some e) :
    ((processMessage net prot s1 protocol payload).1 = some e) ∧
    ((processMessage net prot s1 protocol payload).2.oldMessageQ.lookup
      (CalcMessageHash12 payload protocol) = true) ∧
    ((processMessage net ((processMessage net prot s1 protocol payload).2) s2
        protocol payload).1 = none) ∧
    ((processMessage net ((processMessage net prot s1 protocol payload).2) s2
        protocol payload).2.validatorCalls =
      (processMessage net prot s1 protocol payload).2.validatorCalls) := by
  refine ⟨?_, ?_, ?_, ?_⟩ <;>
    simp [processMessage, markMessageAsOld, getOrInsert_fst,
      lookup_getOrInsert_self, hfresh, herr]

/-- Witness for C10: a validator that rejects with an error; the first
submission surfaces the error, yet the resubmission is dropped as a
duplicate. -/
theorem C10_failed_handoff_not_atomic_witness :
    ((processMessage netValidatorErr (NewProtocol 0) 3 "x" [5]).1 =
      some "validator error") ∧
    ((processMessage netValidatorErr (NewProtocol 0) 3 "x" [5]).2.oldMessageQ.lookup
      (CalcMessageHash12 [5] "x") = true) ∧
    ((processMessage netValidatorErr
        ((processMessage netValidatorErr (NewProtocol 0) 3 "x" [5]).2) 4
        "x" [5]).1 = none) ∧
    ((processMessage netValidatorErr
        ((processMessage netValidatorErr (NewProtocol 0) 3 "x" [5]).2) 4
        "x" [5]).2.validatorCalls =
      (processMessage netValidatorErr (NewProtocol 0) 3 "x" [5]).2.validatorCalls) :=
  C10_failed_handoff_not_atomic netValidatorErr (NewProtocol 0) 3 4 "x" [5]
    "validator error" (by decide) rfl

/-- Claim C9: the fingerprint is a deterministic function of the payload
bytes and the sub-protocol name alone: the intake path marks exactly
`CalcMessageHash12 payload protocol` whatever the sender is, and the
propagation-time recomputation in `handlePQ` from a validation record
with the same payload and sub-protocol yields the identical fingerprint. -/
theorem C9_fingerprint_deterministic (net : baseNetwork) (prot : Protocol)
    (s1 s2 : PublicKey) (protocol : String) (payload : Payload)
    (m : MessageValidation) (hmsg : m.message = payload)
    (hprot : m.protocol = protocol) :
    ((handlePQ net prot [m]).map (fun r => r.1) =
      [CalcMessageHash12 payload protocol]) ∧
    ((processMessage net prot s1 protocol payload).2.oldMessageQ =
      (prot.oldMessageQ.GetOrInsert (CalcMessageHash12 payload protocol)).2) ∧
    ((processMessage net prot s1 protocol payload).2.oldMessageQ =
      (processMessage net prot s2 protocol payload).2.oldMessageQ) := by
  refine ⟨?_, oldMessageQ_processMessage net prot s1 protocol payload, ?_⟩
  · simp [handlePQ, hmsg, hprot]
  · rw [oldMessageQ_processMessage, oldMessageQ_processMessage]

/-- Witness for C9: sender 3 and sender 4 mark the same fingerprint for
payload [5] on sub-protocol "x", and the propagation-time recomputation
from the corresponding validation record matches it. -/
theorem C9_fingerprint_deterministic_witness :
    ((handlePQ netOk protAB [MessageValidation.mk 9 "x" [5]]).map (fun r => r.1) =
      [CalcMessageHash12 [5] "x"]) ∧
    ((processMessage netOk protAB 3 "x" [5]).2.oldMessageQ =
      (protAB.oldMessageQ.GetOrInsert (CalcMessageHash12 [5] "x")).2) ∧
    ((processMessage netOk protAB 3 "x" [5]).2.oldMessageQ =
      (processMessage netOk protAB 4 "x" [5]).2.oldMessageQ) :=
  C9_fingerprint_deterministic netOk protAB 3 4 "x" [5]
    (MessageValidation.mk 9 "x" [5]) rfl rfl

theorem lookupPriority_map_overwrite {l : List (String × Priority)} {n : String}
    (p : Priority) (hany : l.any (fun kv => kv.1 = n) = true) :
    lookupPriority (l.map (fun kv => if kv.1 = n then (n, p) else kv)) n = some p := by
  induction l with
  | nil => simp at hany
  | cons kv rest ih =>
    by_cases hkv : kv.1 = n
    · simp [lookupPriority, hkv]
    · have hrest : rest.any (fun kv => kv.1 = n) = true := by
        simp only [List.any_cons, Bool.or_eq_true] at hany
        rcases hany with hh | ht
        · exact absurd (by simpa using hh) hkv
        · exact ht
      simp [lookupPriority, hkv, ih hrest]

theorem lookupPriority_append_fresh {l : List (String × Priority)} {n : String}
    (p : Priority) (hnone : lookupPriority l n = none) :
    lookupPriority (l ++ [(n, p)]) n = some p := by
  induction l with
  | nil => simp [lookupPriority]
  | cons kv rest ih =>
    by_cases hkv : kv.1 = n
    · simp [lookupPriority, hkv] at hnone
    · simp only [lookupPriority, hkv, if_false, List.cons_append] at hnone ⊢
      exact ih hnone

theorem lookupPriority_none_of_not_any {l : List (String × Priority)} {n : String}
    (hany : l.any (fun kv => kv.1 = n) = false) :
    lookupPriority l n = none := by
  induction l with
  | nil => rfl
  | cons kv rest ih =>
    simp only [List.any_cons, Bool.or_eq_false_iff] at hany
    have hkv : ¬kv.1 = n := by simpa using hany.1
    simp [lookupPriority, hkv, ih hany.2]

/-- Claim C8: a sub-protocol name with no configured priority resolves
to the lowest defined priority level, `Low` (and `getPriority` is total:
no error outcome); a name previously set via `SetPriority` resolves to
the configured priority. -/
theorem C8_priority_default_low (prot : Protocol) (name : String) :
    (lookupPriority prot.priorities name = none →
      getPriority prot name = Priority.Low) ∧
    (∀ p : Priority, getPriority (SetPriority prot name p) name = p) ∧
    (∀ p : Priority, p.rank ≤ Priority.Low.rank) := by
  refine ⟨?_, ?_, ?_⟩
  · intro hnone
    simp [getPriority, hnone]
  · intro p
    unfold getPriority SetPriority
    cases hany : prot.priorities.any (fun kv => kv.1 = name) with
    | true => simp [hany, lookupPriority_map_overwrite p hany]
    | false =>
      simp [hany,
        lookupPriority_append_fresh p (lookupPriority_none_of_not_any hany)]
  · intro p
    cases p <;> simp [Priority.rank]

/-- Witness for C8: the fresh protocol has no priority configured for
"x", so it resolves to Low; after setting it to High it resolves to
High. -/
theorem C8_priority_default_low_witness :
    getPriority (NewProtocol 0) "x" = Priority.Low ∧
    getPriority (SetPriority (NewProtocol 0) "x" Priority.High) "x" =
      Priority.High ∧
    Priority.High.rank ≤ Priority.Low.rank :=
  ⟨(C8_priority_default_low (NewProtocol 0) "x").1 (by decide),
   (C8_priority_default_low (NewProtocol 0) "x").2.1 Priority.High,
   (C8_priority_default_low (NewProtocol 0) "x").2.2 Priority.High⟩

theorem mapInsert_keys_of_mem {m : List (PublicKey × peerRec)} {k : PublicKey}
    (v : peerRec) (hmem : m.any (fun kv => kv.1 = k) = true) :
    (mapInsert m k v).map (fun kv => kv.1) = m.map (fun kv => kv.1) := by
  unfold mapInsert
  rw [if_pos (by simpa using hmem), List.map_map]
  have hfun : ((fun kv : PublicKey × peerRec => kv.1) ∘
      fun kv : PublicKey × peerRec => if kv.1 = k then (k, v) else kv) =
      fun kv : PublicKey × peerRec => kv.1 := by
    funext kv
    by_cases hkv : kv.1 = k <;> simp [Function.comp, hkv]
  rw [hfun]

theorem mapInsert_keys_of_not_mem {m : List (PublicKey × peerRec)} {k : PublicKey}
    (v : peerRec) (hmem : m.any (fun kv => kv.1 = k) = false) :
    (mapInsert m k v).map (fun kv => kv.1) = m.map (fun kv => kv.1) ++ [k] := by
  unfold mapInsert
  rw [if_neg (by simp [hmem]), List.map_append]
  simp

theorem nodup_keys_applyPeerOp (prot : Protocol) (op : PeerOp)
    (hnd : (prot.peers.map (fun kv => kv.1)).Nodup) :
    (((applyPeerOp prot op).peers.map (fun kv => kv.1))).Nodup := by
  cases op with
  | add p =>
    show ((mapInsert prot.peers p (newPeer p)).map (fun kv => kv.1)).Nodup
    cases hany : prot.peers.any (fun kv => kv.1 = p) with
    | true => rw [mapInsert_keys_of_mem _ hany]; exact hnd
    | false =>
      rw [mapInsert_keys_of_not_mem _ hany]
      have hp : p ∉ prot.peers.map (fun kv => kv.1) := by
        have hall : ∀ kv ∈ prot.peers, ¬kv.1 = p := by
          simpa [List.any_eq_false] using hany
        simp only [List.mem_map, not_exists]
        intro kv hconj
        exact hall kv hconj.1 hconj.2
      exact List.Nodup.append hnd (List.nodup_singleton p)
        (by simpa [List.disjoint_singleton] using hp)
  | remove p =>
    exact List.Nodup.sublist
      (List.Sublist.map _ (List.filter_sublist prot.peers)) hnd

theorem nodup_keys_applyPeerOps (prot : Protocol) (ops : List PeerOp)
    (hnd : (prot.peers.map (fun kv => kv.1)).Nodup) :
    (((applyPeerOps prot ops).peers.map (fun kv => kv.1))).Nodup := by
  induction ops generalizing prot with
  | nil => exact hnd
  | cons op rest ih => exact ih (applyPeerOp prot op) (nodup_keys_applyPeerOp prot op hnd)

/-- Claim C7: through every sequence of addPeer/removePeer operations
from a fresh protocol, the peer registry never contains two entries for
the same identifier; adding an already-present identifier overwrites
without growing the count; removing an absent identifier leaves the
registry unchanged. -/
theorem C7_registry_invariants (localPk : PublicKey) :
    (∀ ops : List PeerOp,
      (((applyPeerOps (NewProtocol localPk) ops).peers.map
        (fun kv => kv.1))).Nodup) ∧
    (∀ (prot : Protocol) (k : PublicKey), hasPeer prot k = true →
      peersCount (addPeer prot k) = peersCount prot) ∧
    (∀ (prot : Protocol) (k : PublicKey), hasPeer prot k = false →
      (removePeer prot k).peers = prot.peers) := by
  refine ⟨?_, ?_, ?_⟩
  · intro ops
    exact nodup_keys_applyPeerOps (NewProtocol localPk) ops (by simp [NewProtocol])
  · intro prot k hk
    have hk' : prot.peers.any (fun kv => kv.1 = k) = true := hk
    simp [peersCount, addPeer, mapInsert, hk']
  · intro prot k hk
    have hk' : ∀ kv ∈ prot.peers, ¬kv.1 = k := by
      have hany : prot.peers.any (fun kv => kv.1 = k) = false := hk
      simpa [List.any_eq_false] using hany
    simp only [removePeer]
    rw [List.filter_eq_self]
    intro kv hkv
    simpa using hk' kv hkv

/-- Witness for C7: re-adding peer 1, removing absent peer 3, and a
mixed operation sequence keeping the registry duplicate-free. -/
theorem C7_registry_invariants_witness :
    (((applyPeerOps (NewProtocol 0)
        [PeerOp.add 1, PeerOp.add 1, PeerOp.add 2, PeerOp.remove 1]).peers.map
      (fun kv => kv.1))).Nodup ∧
    peersCount (addPeer protAB 1) = peersCount protAB ∧
    (removePeer protAB 3).peers = protAB.peers :=
  ⟨(C7_registry_invariants 0).1 [PeerOp.add 1, PeerOp.add 1, PeerOp.add 2, PeerOp.remove 1],
   (C7_registry_invariants 0).2.1 protAB 1 (by decide),
   (C7_registry_invariants 0).2.2 protAB 3 (by decide)⟩

theorem consumer_drains (q : List MessageValidation) :
    ∀ s : PipelineState, s.pq = q → s.consumerStatus = .running → s.pqClosed = true →
    ∃ s' : PipelineState, Relation.ReflTransGen PStep s s' ∧
      s'.consumerStatus = .terminated ∧ s'.pqClosed = true := by
  induction q with
  | nil =>
    intro s hq hrun hcl
    exact ⟨{ s with consumerStatus := .terminated },
      Relation.ReflTransGen.single (PStep.consumeClosed s hrun hq hcl), rfl, hcl⟩
  | cons m rest ih =>
    intro s hq hrun hcl
    obtain ⟨s', htr, hterm, hcl'⟩ := ih { s with pq := rest } rfl hrun hcl
    exact ⟨s', Relation.ReflTransGen.head (PStep.consumeItem s m rest hrun hq) htr,
      hterm, hcl'⟩

/-- Claim C5: once the shutdown signal has fired, the running queue-feeding
loop can (and, as the only enabled shutdown reaction, does) take the step
that closes the priority queue and terminates itself; a running consumer
loop whose queue is closed reaches the terminated status after draining
the remaining reads; consumer termination is permanent under every step
(the loop is never restarted), and the queue never reopens. -/
theorem C5_shutdown_terminates_loops :
    (∀ s : PipelineState, s.feedStatus = .running → s.shutdownClosed = true →
      PStep s { s with pqClosed := true, feedStatus := .terminated }) ∧
    (∀ s : PipelineState, s.consumerStatus = .running → s.pqClosed = true →
      ∃ s' : PipelineState, Relation.ReflTransGen PStep s s' ∧
        s'.consumerStatus = .terminated ∧ s'.pqClosed = true) ∧
    (∀ s s' : PipelineState, PStep s s' → s.consumerStatus = .terminated →
      s'.consumerStatus = .terminated) ∧
    (∀ s s' : PipelineState, PStep s s' → s.pqClosed = true →
      s'.pqClosed = true) := by
  refine ⟨?_, ?_, ?_, ?_⟩
  · intro s hrun hsd
    exact PStep.feedShutdown s hrun hsd
  · intro s hrun hcl
    exact consumer_drains s.pq s rfl hrun hcl
  · intro s s' hstep hterm
    cases hstep <;> simp_all
  · intro s s' hstep hcl
    cases hstep <;> simp_all

/-- Witness for C5: a concrete feed-loop shutdown step, a concrete
consumer drain to termination, and concrete permanence of termination
and queue closure across a step. -/
theorem C5_shutdown_terminates_loops_witness :
    PStep (PipelineState.mk true [] [] false .running .running)
      { PipelineState.mk true [] [] false .running .running with
          pqClosed := true, feedStatus := .terminated } ∧
    (∃ s' : PipelineState,
      Relation.ReflTransGen PStep
        (PipelineState.mk true [] [MessageValidation.mk 0 "x" [1]] true
          .terminated .running) s' ∧
      s'.consumerStatus = .terminated ∧ s'.pqClosed = true) ∧
    ({ PipelineState.mk false [] [] true .running .terminated with
        shutdownClosed := true }).consumerStatus = .terminated ∧
    ({ PipelineState.mk false [] [] true .running .terminated with
        shutdownClosed := true }).pqClosed = true :=
  ⟨C5_shutdown_terminates_loops.1 (PipelineState.mk true [] [] false .running .running)
      rfl rfl,
   C5_shutdown_terminates_loops.2.1
      (PipelineState.mk true [] [MessageValidation.mk 0 "x" [1]] true
        .terminated .running) rfl rfl,
   C5_shutdown_terminates_loops.2.2.1
      (PipelineState.mk false [] [] true .running .terminated) _
      (PStep.closeShutdown (PipelineState.mk false [] [] true .running .terminated) rfl)
      rfl,
   C5_shutdown_terminates_loops.2.2.2
      (PipelineState.mk false [] [] true .running .terminated) _
      (PStep.closeShutdown (PipelineState.mk false [] [] true .running .terminated) rfl)
      rfl⟩

/-- Claim C6 is refuted by the source: `Close` is an unguarded
`close(prot.shutdown)`, and Go's `close` on an already-closed channel
panics, so a second `Close()` on an already-closed controller panics
rather than being a no-op.  The first `Close` succeeds; the second hits
the "close of closed channel" runtime panic. -/
theorem C6_second_close_panics :
    Close { isClosed := false } = Except.ok { isClosed := true } ∧
    Close { isClosed := true } =
      Except.error { message := "close of closed channel" } :=
  ⟨rfl, rfl⟩

end Gossip
